import Mathlib

/-!
Shallow embedding of the `terminal-aws-cli` scripts and proofs of the
spec claims about them.

The repository consists of five independent Python scripts:
`aws-service-cost-analysis.py`, `aws-billing-info.py`, `aws-ec2-list.py`,
`aws-list-profiles.py`, `aws-ec2-creator.py`.  Pure computations are
translated to Lean functions; API responses, interactive input and
file-system effects are passed in explicitly (responses as `Except`
values, the stream of interactive answers as a `List String`, file-system
effects as an event list).  Python floats are modelled as exact rationals
(`ℚ`); float rounding is not load-bearing for any claim proved here.
-/

namespace AwsCli

/-! ### Models of Python string/number primitives

A Python `str` is a sequence of Unicode code points, modelled as
`List Char`; a Lean `String` literal is converted with `.data`. -/

/-- A Python string: a list of code points. -/
abbrev PyStr := List Char

/-- The whitespace characters removed by Python `str.strip()` (the ASCII
ones; non-ASCII Unicode whitespace is not modelled, no claim uses it). -/
def pyIsSpace (c : Char) : Bool :=
  c == ' ' || c == '\t' || c == '\n' || c == '\r' || c == '\x0b' || c == '\x0c'

/-- Python `s.strip()`: remove leading and trailing whitespace. -/
def pyStrip (cs : PyStr) : PyStr :=
  ((cs.dropWhile pyIsSpace).reverse.dropWhile pyIsSpace).reverse

/-- Python `s.lower()` (ASCII case mapping, which `Char.toLower`
implements; every comparison in the scripts is against an ASCII word). -/
def pyLower (cs : PyStr) : PyStr := cs.map Char.toLower

/-- Python `s.strip().lower()` as used on interactive answers
(`aws-ec2-list.py` lines 107, 123, 145; `aws-ec2-creator.py` line 123). -/
def pyStripLower (cs : PyStr) : PyStr := pyLower (pyStrip cs)

/-- Validity of the character stream after the first digit of a Python
integer literal: every underscore must sit between two digits
(`int("1_0") = 10`, `int("1__0")`/`int("1_")` raise `ValueError`). -/
def pyDigitsOkAux : List Char → Bool
  | [] => true
  | '_' :: c :: cs => c.isDigit && pyDigitsOkAux cs
  | ['_'] => false
  | c :: cs => c.isDigit && pyDigitsOkAux cs

/-- A nonempty digit group accepted by Python `int()` (after sign removal). -/
def pyDigitsOk : List Char → Bool
  | [] => false
  | c :: cs => c.isDigit && pyDigitsOkAux cs

/-- Numeric value of a validated digit group (underscores are ignored). -/
def pyDigitsVal (cs : List Char) : Int :=
  (cs.filter (fun c => c != '_')).foldl (fun n c => n * 10 + ((c.toNat : Int) - 48)) 0

/-- Python `int(s)`: surrounding whitespace is stripped, an optional
sign is followed by a nonempty digit group; any other shape raises
`ValueError`, modelled as `none`.  (Non-ASCII decimal digits are not
modelled; no claim depends on them.) -/
def pyParseInt (s : PyStr) : Option Int :=
  match pyStrip s with
  | '+' :: rest => if pyDigitsOk rest then some (pyDigitsVal rest) else none
  | '-' :: rest => if pyDigitsOk rest then some (-pyDigitsVal rest) else none
  | rest => if pyDigitsOk rest then some (pyDigitsVal rest) else none

/-- Python list indexing `l[i]`: a negative index counts from the end;
an index out of range raises `IndexError`, modelled as `none`. -/
def pyIndex {α : Type} (l : List α) (i : Int) : Option α :=
  let j : Int := if i < 0 then (l.length : Int) + i else i
  if 0 ≤ j then l[j.toNat]? else none

/-- Floor of a rational, computed on the numerator/denominator pair. -/
def ratFloor (q : ℚ) : Int := q.num.fdiv q.den

/-- Round a rational to the nearest integer, ties to even — the rounding
used by Python's fixed-point float formatting. -/
def roundHalfEven (q : ℚ) : Int :=
  let f := ratFloor q
  let r := q - (f : ℚ)
  if r < 1 / 2 then f
  else if 1 / 2 < r then f + 1
  else if f % 2 = 0 then f else f + 1

/-- Left-pad a two-digit fraction field with `0`. -/
def pad2 (n : Nat) : String := if n < 10 then "0" ++ toString n else toString n

/-- Python `f"{x:.2f}"` on an exact rational: two decimal places,
rounding half to even.  (Python formats the nearest binary double; on
exactly representable values this agrees, and no claim proved below
depends on the rounding of a tie.) -/
def formatFixed2 (q : ℚ) : String :=
  let cents := roundHalfEven (q * 100)
  let sign := if cents < 0 then "-" else ""
  let a := cents.natAbs
  sign ++ toString (a / 100) ++ "." ++ pad2 (a % 100)

/-- `format_cost` from `aws-service-cost-analysis.py` lines 45-47:
`f"${float(cost):.2f}"`. -/
def format_cost (q : ℚ) : String := "$" ++ formatFixed2 q

/-! ### aws-service-cost-analysis.py — cost aggregation (lines 63-92) -/

/-- One Cost Explorer group: `(group['Keys'][0],
float(group['Metrics']['UnblendedCost']['Amount']))`. -/
abbrev CostGroup := String × ℚ

/-- One step of the dict update on line 71:
`services[service] = services.get(service, 0) + cost`.  A Python dict
keeps insertion order, so it is modelled as an association list: an
existing key is updated in place, a new key is appended. -/
def addService (svc : List CostGroup) (g : CostGroup) : List CostGroup :=
  if svc.any (fun p => p.1 == g.1) then
    svc.map (fun p => if p.1 == g.1 then (p.1, p.2 + g.2) else p)
  else svc ++ [g]

/-- The aggregation loop of `analyze_costs`, lines 63-71, over the
flattened list of groups (`for result in results: for group in
result['Groups']`): returns `(total_cost, services)`. -/
def aggregate (groups : List CostGroup) : ℚ × List CostGroup :=
  groups.foldl (fun acc g => (acc.1 + g.2, addService acc.2 g)) (0, [])

/-- Sum of the cost components of a list of groups. -/
def sumCosts (l : List CostGroup) : ℚ := (l.map Prod.snd).sum

/-- Line 74: `sorted(services.items(), key=lambda x: x[1], reverse=True)`.
Python's sort is stable, so any stable sort by the same key order gives
the same list; `List.mergeSort` is stable. -/
def sortServicesDesc (svc : List CostGroup) : List CostGroup :=
  svc.mergeSort (fun a b => decide (b.2 ≤ a.2))

/-- The `% of Total` column of line 78: `(cost/total_cost)*100` for each
entry of the sorted service list. -/
def percentages (sorted : List CostGroup) (total : ℚ) : List ℚ :=
  sorted.map (fun e => e.2 / total * 100)

/-- Line 91: `f"3. Most expensive service: {sorted_services[0][0]}
({format_cost(sorted_services[0][1])})"`; `none` models the
`IndexError` raised on an empty list. -/
def most_expensive_line (sorted : List CostGroup) : Option String :=
  sorted.head?.map
    (fun e => "3. Most expensive service: " ++ e.1 ++ " (" ++ format_cost e.2 ++ ")")

/-- Line 92, with `sorted_services[-1]`. -/
def least_expensive_line (sorted : List CostGroup) : Option String :=
  sorted.getLast?.map
    (fun e => "4. Least expensive service: " ++ e.1 ++ " (" ++ format_cost e.2 ++ ")")

/-- Runtime errors reachable in `analyze_costs` lines 63-92 on a
successful API response. -/
inductive CostError where
  /-- `sorted_services[0]` on an empty list, line 91. -/
  | indexError
  /-- `cost/total_cost` with `total_cost == 0`, line 78. -/
  | zeroDivisionError
deriving DecidableEq

/-- Lines 63-92 of `analyze_costs` as a fallible computation on the
current-period results (one inner list of groups per `ResultsByTime`
entry).  The percentage comprehension of line 78 runs before the
`sorted_services[0]` access of line 91, so with no groups at all the
first error raised is the `IndexError` of line 91, and with groups
summing to zero it is the `ZeroDivisionError` of line 78. -/
def analyze_core (results : List (List CostGroup)) :
    Except CostError (ℚ × List CostGroup) :=
  let a := aggregate results.flatten
  let sorted := sortServicesDesc a.2
  if sorted.isEmpty then Except.error CostError.indexError
  else if a.1 = 0 then Except.error CostError.zeroDivisionError
  else Except.ok (a.1, sorted)

/-- Line 133: `cost_change = ((total_cost - prev_period_cost) /
prev_period_cost) * 100 if prev_period_cost > 0 else 0`.  The guard
means no division is performed when the previous cost is not positive. -/
def cost_change (total_cost prev_period_cost : ℚ) : ℚ :=
  if prev_period_cost > 0 then ((total_cost - prev_period_cost) / prev_period_cost) * 100
  else 0

/-- The direction word of line 134: `'Increase' if cost_change > 0 else
'Decrease'`. -/
def trendDirection (c : ℚ) : String := if c > 0 then "Increase" else "Decrease"

/-- Line 134's printed trend line. -/
def trendLine (c : ℚ) (days : Int) : String :=
  "10. Cost trend: " ++ trendDirection c ++ " of " ++ formatFixed2 |c| ++
    "% compared to previous " ++ toString days ++ " days"

/-! ### aws-billing-info.py -/

/-- The two Cost Explorer numbers `get_billing_info` extracts on a
successful run: `month_to_date_cost` (line 25) and `forecast` (line 33). -/
structure BillingApiData where
  month_to_date : ℚ
  forecast : ℚ

/-- `get_billing_info` (lines 8-43): on success a four-field record
(lines 35-40), on a `ClientError` a two-field error record (line 43).
Records are association lists in insertion order, as Python dicts are. -/
def get_billing_info (profile : String) (api : Except String BillingApiData) :
    List (String × String) :=
  match api with
  | Except.ok d =>
    [("Profile", profile),
     ("Month-to-Date Cost", format_cost d.month_to_date),
     ("Forecast", format_cost d.forecast),
     ("Estimated Amount Due", format_cost d.forecast)]
  | Except.error e => [("Profile", profile), ("Error", e)]

/-- `main` of `aws-billing-info.py` (lines 45-51): one record per
profile, in order, errors included.  `api` gives each profile's Cost
Explorer response. -/
def billing_main (profiles : List String) (api : String → Except String BillingApiData) :
    List (List (String × String)) :=
  profiles.map (fun p => get_billing_info p (api p))

/-- The `__main__` block of `aws-billing-info.py` (lines 59-69): with
fewer than two `argv` entries it prints usage and calls `sys.exit(1)`;
otherwise it runs `main(sys.argv[1:])` and the process ends with
status 0.  Returns `(exit status, records printed)`. -/
def billing_script (argv : List String) (api : String → Except String BillingApiData) :
    Nat × List (List (String × String)) :=
  if argv.length < 2 then (1, [])
  else (0, billing_main (argv.drop 1) api)

/-! ### aws-ec2-list.py -/

/-- The raw EC2 `describe_instances` data consumed by
`list_ec2_instances` (lines 23-46). -/
structure Ec2Instance where
  instanceId : String
  state : String
  instanceType : String
  publicIp : Option String
  privateIp : Option String
  tags : List (String × String)
  launchTime : String

/-- The display dict built per instance (lines 38-46). -/
structure InstanceSummary where
  id : String
  name : String
  state : String
  instanceType : String
  privateIp : String
  publicIp : String
  launchTime : String

/-- Lines 25-46: field extraction for one instance.  The tag loop
(lines 33-36) overwrites `name` on every tag whose key is `Name`, so
the last matching tag wins; a missing `PublicIpAddress` /
`PrivateIpAddress` defaults to `'None'`. -/
def extract_instance (i : Ec2Instance) : InstanceSummary :=
  { id := i.instanceId
    name := (((i.tags.filter (fun t => t.1 == "Name")).map Prod.snd).getLast?).getD "None"
    state := i.state
    instanceType := i.instanceType
    privateIp := i.privateIp.getD "None"
    publicIp := i.publicIp.getD "None"
    launchTime := i.launchTime }

/-- `list_ec2_instances` (lines 13-51): on success the instances of all
reservations in order; on a `ClientError` it prints an error and
returns the empty list (lines 49-51). -/
def list_ec2_instances (resp : Except String (List (List Ec2Instance))) :
    List InstanceSummary :=
  match resp with
  | Except.ok reservations => (reservations.map (fun r => r.map extract_instance)).flatten
  | Except.error _ => []

/-- An EC2 instance-action API call issued by the management loop. -/
inductive ApiCall where
  | start (id : PyStr)
  | stop (id : PyStr)
  | reboot (id : PyStr)
  | terminate (id : PyStr)
deriving DecidableEq

/-- The `while True` loop of `manage_instances` (lines 106-129), run on
the stream of interactive answers; returns the instance-action API
calls issued, in order.  Exhausting the input stream models `input()`
raising at end of input (no further call is made).  The `terminate`
verb asks for confirmation (line 123) and calls the API only when the
stripped, lowercased answer is exactly `y` (lines 124-127). -/
def action_loop : List PyStr → List ApiCall
  | [] => []
  | a :: rest =>
    if pyStripLower a = "q".data then []
    else if pyStripLower a = "start".data ∨ pyStripLower a = "stop".data ∨
        pyStripLower a = "reboot".data ∨ pyStripLower a = "terminate".data then
      match rest with
      | [] => []
      | iid :: rest2 =>
        if pyStripLower a = "start".data then ApiCall.start (pyStrip iid) :: action_loop rest2
        else if pyStripLower a = "stop".data then ApiCall.stop (pyStrip iid) :: action_loop rest2
        else if pyStripLower a = "reboot".data then
          ApiCall.reboot (pyStrip iid) :: action_loop rest2
        else
          match rest2 with
          | [] => []
          | c :: rest3 =>
            if pyStripLower c = "y".data then
              ApiCall.terminate (pyStrip iid) :: action_loop rest3
            else action_loop rest3
    else action_loop rest

/-- `manage_instances` (lines 94-129): with no instances it prints
`No instances found ...` and returns before the action loop (lines
97-99); otherwise it prints the table header and runs the loop.
Returns `(messages printed by this function itself, API calls)`. -/
def manage_instances (profile : String) (resp : Except String (List (List Ec2Instance)))
    (inputs : List PyStr) : List String × List ApiCall :=
  let instances := list_ec2_instances resp
  if instances.isEmpty then
    (["No instances found for profile " ++ profile ++ "."], [])
  else
    (["Instances for profile: " ++ profile], action_loop inputs)

/-- Where the `__main__` block of `aws-ec2-list.py` (lines 138-156)
dispatches after reading the profile choice. -/
inductive MainOutcome where
  | manageAll
  | manage (profile : String)
  | invalidSelection
deriving DecidableEq

/-- Result of the `__main__` dispatch: the branch taken, and `some c`
when the script terminates right there with exit status `c` (`none`
when it continues into instance management). -/
structure MainResult where
  outcome : MainOutcome
  exitCode : Option Nat
deriving DecidableEq

/-- The `__main__` block of `aws-ec2-list.py` (lines 138-156).  The
choice is `.strip().lower()`ed (line 145); `all` manages every profile;
otherwise `int(choice) - 1` indexes `profiles` (Python indexing, so
negative indices count from the end), and a `ValueError` or
`IndexError` is caught: the script prints `Invalid selection.
Exiting...` and falls off the end of the file, terminating normally
with exit status 0 — there is no `sys.exit` call in this script. -/
def ec2_list_main (profiles : List String) (raw_choice : PyStr) : MainResult :=
  let choice := pyStripLower raw_choice
  if choice = "all".data then { outcome := MainOutcome.manageAll, exitCode := none }
  else
    match pyParseInt choice with
    | none => { outcome := MainOutcome.invalidSelection, exitCode := some 0 }
    | some n =>
      match pyIndex profiles (n - 1) with
      | none => { outcome := MainOutcome.invalidSelection, exitCode := some 0 }
      | some p => { outcome := MainOutcome.manage p, exitCode := none }

/-! ### aws-list-profiles.py -/

/-- A parsed INI file: sections in order, each with its option/value
pairs.  `configparser` rejects duplicate sections within a file, so the
section names are assumed distinct where a claim needs it; option keys
are stored as `configparser` normalises them (lowercased). -/
abbrev IniFile := List (PyStr × List (String × String))

/-- One row of the table built by `get_aws_profiles` (keys `Profile`,
`Region`, `Account ID`). -/
structure AwsProfileEntry where
  profile : PyStr
  region : String
  account_id : String
deriving DecidableEq

/-- `config[section].get("region", "Not set")` (lines 33 and 47). -/
def sect_get_region (body : List (String × String)) : String :=
  match body.find? (fun kv => kv.1 == "region") with
  | some kv => kv.2
  | none => "Not set"

/-- The `"profile "` marker stripped by `section[8:]` on line 32. -/
def profileSectionTag : PyStr := "profile ".data

/-- First pass of `get_aws_profiles` (lines 30-39): every config
section starting with `profile ` becomes an entry, the prefix removed,
region looked up in that section.  `acct` models `get_account_id`. -/
def config_profile_entries (config : IniFile) (acct : PyStr → String) :
    List AwsProfileEntry :=
  (config.filter (fun s => profileSectionTag.isPrefixOf s.1)).map
    (fun s =>
      { profile := s.1.drop 8
        region := sect_get_region s.2
        account_id := acct (s.1.drop 8) })

/-- Lines 45-47: the region of a credentials-only profile comes from a
bare config section of the same name if there is one, else `Not set`. -/
def bare_config_region (config : IniFile) (p : PyStr) : String :=
  match config.find? (fun s => s.1 == p) with
  | some s => sect_get_region s.2
  | none => "Not set"

/-- Second pass of `get_aws_profiles` (lines 42-53): each credentials
section is skipped when an entry with its name already exists
(`next((p for p in profiles if p["Profile"] == profile), None)`),
otherwise appended with the bare-config region. -/
def add_cred_profiles (config : IniFile) (acct : PyStr → String) :
    List AwsProfileEntry → List PyStr → List AwsProfileEntry
  | ps, [] => ps
  | ps, c :: cs =>
    if ps.any (fun p => p.profile == c) then add_cred_profiles config acct ps cs
    else
      add_cred_profiles config acct
        (ps ++ [{ profile := c
                  region := bare_config_region config c
                  account_id := acct c }]) cs

/-- `get_aws_profiles` (lines 18-55): config-file pass then
credentials-file pass. -/
def get_aws_profiles (config : IniFile) (credentials : List PyStr)
    (acct : PyStr → String) : List AwsProfileEntry :=
  add_cred_profiles config acct (config_profile_entries config acct) credentials

/-- The profile names produced by the config-file pass. -/
def configProfileNames (config : IniFile) : List PyStr :=
  (config.filter (fun s => profileSectionTag.isPrefixOf s.1)).map (fun s => s.1.drop 8)

/-! ### aws-ec2-creator.py — manage_key_pair (lines 122-156) -/

/-- A file-system side effect performed by `manage_key_pair`. -/
inductive FsEvent where
  /-- `open(key_file, 'w')` + `f.write(private_key)` (lines 148-149). -/
  | write (path : String) (contents : String)
  /-- `os.chmod(key_file, 0o400)` (line 150). -/
  | chmod (path : String) (mode : Nat)
deriving DecidableEq

/-- How `manage_key_pair` ends. -/
inductive KeyPairOutcome where
  | returned (key_name : String)
  /-- `sys.exit(1)` (line 156), or the uncaught end-of-input error of
  the selection loop. -/
  | exited (code : Nat)
deriving DecidableEq

/-- The numbered-menu retry loop (`aws-ec2-creator.py` lines 131-139,
and the same pattern at lines 19-27 and 40-48): consume answers until
one parses as an integer in `1..n`, returning the zero-based index;
`none` models the stream running out (an uncaught error in Python). -/
def select_by_number (n : Nat) : List PyStr → Option Nat
  | [] => none
  | s :: rest =>
    match pyParseInt s with
    | some k => if 1 ≤ k ∧ k ≤ (n : Int) then some (k - 1).toNat else select_by_number n rest
    | none => select_by_number n rest

/-- `manage_key_pair` (lines 122-156).  When the stripped, lowercased
answer is `y`, an existing key pair is selected by number and its name
returned with no file-system effect.  Otherwise a new key pair is
created: the returned key material is written to `<key_name>.pem`,
that file's mode is set to `0o400`, and the key name is returned; on a
`ClientError` from `create_key_pair` the function exits with status 1
having written nothing.  `api` is the `create_key_pair` response. -/
def manage_key_pair (use_existing : PyStr) (key_pairs : List String)
    (selections : List PyStr) (key_name : String) (api : Except String String) :
    List FsEvent × KeyPairOutcome :=
  if pyStripLower use_existing = "y".data then
    match select_by_number key_pairs.length selections with
    | some idx => ([], KeyPairOutcome.returned (key_pairs.getD idx ""))
    | none => ([], KeyPairOutcome.exited 1)
  else
    match api with
    | Except.ok private_key =>
      let key_file := key_name ++ ".pem"
      ([FsEvent.write key_file private_key, FsEvent.chmod key_file 0o400],
        KeyPairOutcome.returned key_name)
    | Except.error _ => ([], KeyPairOutcome.exited 1)

/-! ## Supporting lemmas -/

/-- `formatFixed2` renders an exact zero as `0.00`. -/
theorem formatFixed2_zero : formatFixed2 0 = "0.00" := by
  norm_num [formatFixed2, roundHalfEven, ratFloor, pad2]
  rfl

/-- The service names of `addService svc g`: unchanged when the key is
present, extended by `g.1` otherwise. -/
theorem addService_keys (svc : List CostGroup) (g : CostGroup) :
    (addService svc g).map Prod.fst =
      if svc.any (fun p => p.1 == g.1) then svc.map Prod.fst
      else svc.map Prod.fst ++ [g.1] := by
  unfold addService
  split
  · rw [List.map_map]
    exact List.map_congr_left fun p _ => by by_cases h : p.1 = g.1 <;> simp [h]
  · simp

/-- `addService` preserves distinctness of the service names. -/
theorem addService_nodup (svc : List CostGroup) (g : CostGroup)
    (hnd : (svc.map Prod.fst).Nodup) : ((addService svc g).map Prod.fst).Nodup := by
  rw [addService_keys]
  split
  · exact hnd
  · rename_i hany
    simp only [List.any_eq_true, beq_iff_eq, not_exists, not_and] at hany
    have : g.1 ∉ svc.map Prod.fst := by
      simp only [List.mem_map, not_exists, not_and]
      exact fun p hp he => hany p hp he
    simp [List.nodup_append, hnd, this]

/-- `addService` never shrinks the service table. -/
theorem length_le_addService (svc : List CostGroup) (g : CostGroup) :
    svc.length ≤ (addService svc g).length := by
  unfold addService
  split <;> simp

/-- `sumCosts` of a cons. -/
theorem sumCosts_cons (x : CostGroup) (l : List CostGroup) :
    sumCosts (x :: l) = x.2 + sumCosts l := by simp [sumCosts]

/-- Updating the one entry with key `g.1` adds exactly `g.2` to the
summed cost, provided the keys are distinct. -/
theorem sumCosts_update (svc : List CostGroup) (g : CostGroup)
    (hnd : (svc.map Prod.fst).Nodup) :
    sumCosts (svc.map (fun p => if p.1 == g.1 then (p.1, p.2 + g.2) else p)) =
      if svc.any (fun p => p.1 == g.1) then sumCosts svc + g.2 else sumCosts svc := by
  induction svc with
  | nil => simp [sumCosts]
  | cons p rest ih =>
    simp only [List.map_cons, List.nodup_cons] at hnd
    have ihr := ih hnd.2
    by_cases h : p.1 = g.1
    · have hrest : rest.map (fun q => if q.1 == g.1 then (q.1, q.2 + g.2) else q) = rest := by
        refine (List.map_congr_left fun q hq => ?_).trans (List.map_id rest)
        have hq1 : q.1 ≠ g.1 := by
          intro he
          exact hnd.1 (by rw [h, ← he]; exact List.mem_map_of_mem Prod.fst hq)
        simp [hq1]
      simp only [List.map_cons, hrest]
      simp [h, sumCosts_cons]
      ring
    · simp only [List.map_cons]
      cases hany : rest.any (fun q => q.1 == g.1) with
      | true =>
        simp [hany] at ihr
        simp [h, hany, sumCosts_cons, ihr]
        ring
      | false =>
        simp [hany] at ihr
        simp [h, hany, sumCosts_cons, ihr]

/-- Invariant of the aggregation loop (lines 66-71), for any starting
accumulator: service names stay distinct, the running total adds the
sum of the processed costs, the summed service costs add the same, and
the table never shrinks. -/
theorem aggregate_loop_invariant (groups : List CostGroup) :
    ∀ (t : ℚ) (svc : List CostGroup), (svc.map Prod.fst).Nodup →
      ((((groups.foldl (fun acc g => (acc.1 + g.2, addService acc.2 g)) (t, svc)).2.map
          Prod.fst).Nodup) ∧
        (groups.foldl (fun acc g => (acc.1 + g.2, addService acc.2 g)) (t, svc)).1 =
          t + sumCosts groups ∧
        sumCosts (groups.foldl (fun acc g => (acc.1 + g.2, addService acc.2 g)) (t, svc)).2 =
          sumCosts svc + sumCosts groups ∧
        svc.length ≤
          (groups.foldl (fun acc g => (acc.1 + g.2, addService acc.2 g)) (t, svc)).2.length) := by
  induction groups with
  | nil => intro t svc hnd; simp [sumCosts, hnd]
  | cons g gs ih =>
    intro t svc hnd
    have hnd' := addService_nodup svc g hnd
    have hsum : sumCosts (addService svc g) = sumCosts svc + g.2 := by
      unfold addService
      split
      · rename_i hany
        rw [sumCosts_update svc g hnd]
        simp [hany]
      · simp [sumCosts]
    obtain ⟨h1, h2, h3, h4⟩ := ih (t + g.2) (addService svc g) hnd'
    refine ⟨by simpa using h1, ?_, ?_, ?_⟩
    · simp only [List.foldl_cons]
      rw [h2]
      simp [sumCosts]
      ring
    · simp only [List.foldl_cons]
      rw [h3, hsum]
      simp [sumCosts]
      ring
    · simp only [List.foldl_cons]
      exact le_trans (length_le_addService svc g) h4

/-- A nonempty group list aggregates to a nonempty service table. -/
theorem aggregate_ne_nil (groups : List CostGroup) (h : groups ≠ []) :
    (aggregate groups).2 ≠ [] := by
  match groups, h with
  | g :: gs, _ =>
    have hstep : addService [] g = [g] := by simp [addService]
    have hinv := (aggregate_loop_invariant gs (0 + g.2) [g] (by simp)).2.2.2
    intro hcon
    rw [aggregate, List.foldl_cons, hstep] at hcon
    rw [hcon] at hinv
    simp at hinv

/-- The sum of the percentage column over any service list. -/
theorem percentages_sum (l : List CostGroup) (t : ℚ) :
    (percentages l t).sum = sumCosts l / t * 100 := by
  induction l with
  | nil => simp [percentages, sumCosts]
  | cons e rest ih =>
    simp only [percentages, sumCosts, List.map_cons, List.sum_cons] at ih ⊢
    rw [ih]
    ring

/-- Sorting does not change the summed cost. -/
theorem sumCosts_sortServicesDesc (svc : List CostGroup) :
    sumCosts (sortServicesDesc svc) = sumCosts svc :=
  ((List.mergeSort_perm svc _).map Prod.snd).sum_eq

/-- In a `Pairwise R` list every member is the head or is `R`-below it. -/
theorem pairwise_head_rel {α : Type _} {R : α → α → Prop} :
    ∀ (l : List α) (h : l ≠ []) (x : α), l.Pairwise R → x ∈ l →
      x = l.head h ∨ R (l.head h) x := by
  intro l h x hp hx
  match l, h with
  | a :: t, _ =>
    rcases hx with _ | hx
    · exact Or.inl rfl
    · exact Or.inr (List.rel_of_pairwise_cons hp (by assumption))

/-- In a `Pairwise R` list every member is the last element or is
`R`-above it. -/
theorem pairwise_getLast_rel {α : Type _} {R : α → α → Prop} :
    ∀ (l : List α) (h : l ≠ []) (x : α), l.Pairwise R → x ∈ l →
      x = l.getLast h ∨ R x (l.getLast h) := by
  intro l
  induction l with
  | nil => intro h; exact absurd rfl h
  | cons a t ih =>
    intro h x hp hx
    cases t with
    | nil =>
      simp only [List.mem_singleton] at hx
      exact Or.inl (by simp [hx])
    | cons b t2 =>
      rw [List.getLast_cons (by simp)]
      rcases hx with _ | hx
      · right
        exact List.rel_of_pairwise_cons hp (List.getLast_mem (by simp))
      · exact ih (by simp) x (List.Pairwise.sublist (List.sublist_cons_self a (b :: t2)) hp)
          (by assumption)

/-- The sorted service list is pairwise descending in cost. -/
theorem sortServicesDesc_pairwise (svc : List CostGroup) :
    (sortServicesDesc svc).Pairwise (fun a b => b.2 ≤ a.2) := by
  have h : (List.mergeSort svc (fun a b : CostGroup => decide (b.2 ≤ a.2))).Pairwise
      (fun a b : CostGroup => decide (b.2 ≤ a.2) = true) := by
    apply List.sorted_mergeSort
    · intro a b c h1 h2
      simp only [decide_eq_true_eq] at *
      exact le_trans h2 h1
    · intro a b
      simp only [Bool.or_eq_true, decide_eq_true_eq]
      exact le_total b.2 a.2
  exact h.imp (fun hab => by simpa using hab)

/-- Unfolding the action loop on a `q` answer. -/
theorem action_loop_q_eq (a : PyStr) (rest : List PyStr)
    (hq : pyStripLower a = "q".data) : action_loop (a :: rest) = [] := by
  rw [action_loop.eq_def]
  simp [hq]

/-- Unfolding the action loop on an invalid action answer. -/
theorem action_loop_invalid_eq (a : PyStr) (rest : List PyStr)
    (hnq : ¬pyStripLower a = "q".data)
    (hnverb : ¬(pyStripLower a = "start".data ∨ pyStripLower a = "stop".data ∨
      pyStripLower a = "reboot".data ∨ pyStripLower a = "terminate".data)) :
    action_loop (a :: rest) = action_loop rest := by
  rw [action_loop.eq_def]
  simp only [if_neg hnq, if_neg hnverb]

/-- Unfolding the action loop on a valid verb hitting the end of the
input stream before an instance id. -/
theorem action_loop_verb_nil_eq (a : PyStr)
    (hnq : ¬pyStripLower a = "q".data)
    (hverb : pyStripLower a = "start".data ∨ pyStripLower a = "stop".data ∨
      pyStripLower a = "reboot".data ∨ pyStripLower a = "terminate".data) :
    action_loop [a] = [] := by
  rw [action_loop.eq_def]
  simp only [if_neg hnq, if_pos hverb]

/-- Unfolding the action loop on a `start` action. -/
theorem action_loop_start_eq (a i : PyStr) (rest : List PyStr)
    (h : pyStripLower a = "start".data) :
    action_loop (a :: i :: rest) = ApiCall.start (pyStrip i) :: action_loop rest := by
  rw [action_loop.eq_def]
  simp +decide [h]

/-- Unfolding the action loop on a `stop` action. -/
theorem action_loop_stop_eq (a i : PyStr) (rest : List PyStr)
    (h : pyStripLower a = "stop".data) :
    action_loop (a :: i :: rest) = ApiCall.stop (pyStrip i) :: action_loop rest := by
  rw [action_loop.eq_def]
  simp +decide [h]

/-- Unfolding the action loop on a `reboot` action. -/
theorem action_loop_reboot_eq (a i : PyStr) (rest : List PyStr)
    (h : pyStripLower a = "reboot".data) :
    action_loop (a :: i :: rest) = ApiCall.reboot (pyStrip i) :: action_loop rest := by
  rw [action_loop.eq_def]
  simp +decide [h]

/-- Unfolding the action loop on a `terminate` action hitting the end
of the input stream before a confirmation answer. -/
theorem action_loop_term_nil_eq (a i : PyStr)
    (h : pyStripLower a = "terminate".data) : action_loop [a, i] = [] := by
  rw [action_loop.eq_def]
  simp +decide [h]

/-- Unfolding the action loop on a confirmed `terminate` action. -/
theorem action_loop_term_y_eq (a i c : PyStr) (rest : List PyStr)
    (h : pyStripLower a = "terminate".data) (hy : pyStripLower c = "y".data) :
    action_loop (a :: i :: c :: rest) = ApiCall.terminate (pyStrip i) :: action_loop rest := by
  rw [action_loop.eq_def]
  simp +decide [h, hy]

/-- Unfolding the action loop on a `terminate` action whose
confirmation answer does not normalise to `y`: the action is aborted,
the loop continues, and no call is issued for it. -/
theorem action_loop_term_abort_eq (a i c : PyStr) (rest : List PyStr)
    (h : pyStripLower a = "terminate".data) (hny : ¬pyStripLower c = "y".data) :
    action_loop (a :: i :: c :: rest) = action_loop rest := by
  rw [action_loop.eq_def]
  simp +decide [h, hny]

/-- Every `terminate` API call issued by the action loop originates
from a contiguous action/instance-id/confirmation answer triple whose
action normalises to `terminate` and whose confirmation answer
normalises to exactly `y`. -/
theorem action_loop_terminate_src :
    ∀ (inputs : List PyStr) (id : PyStr), ApiCall.terminate id ∈ action_loop inputs →
      ∃ (p : List PyStr) (a i c : PyStr) (s : List PyStr),
        inputs = p ++ a :: i :: c :: s ∧ pyStripLower a = "terminate".data ∧
        pyStrip i = id ∧ pyStripLower c = "y".data := by
  intro inputs
  induction inputs using action_loop.induct with
  | case1 =>
    intro id hmem
    simp [action_loop] at hmem
  | case2 a rest hq =>
    intro id hmem
    rw [action_loop_q_eq a rest hq] at hmem
    simp at hmem
  | case3 a hnq hverb =>
    intro id hmem
    rw [action_loop_verb_nil_eq a hnq hverb] at hmem
    simp at hmem
  | case4 a hnq hverb i rest hstart ih =>
    intro id hmem
    rw [action_loop_start_eq a i rest hstart] at hmem
    rcases List.mem_cons.mp hmem with heq | hmem2
    · simp at heq
    · obtain ⟨p, a', i', c', s', hsplit, h1, h2, h3⟩ := ih id hmem2
      exact ⟨a :: i :: p, a', i', c', s', by rw [hsplit]; rfl, h1, h2, h3⟩
  | case5 a hnq hverb i rest hnstart hstop ih =>
    intro id hmem
    rw [action_loop_stop_eq a i rest hstop] at hmem
    rcases List.mem_cons.mp hmem with heq | hmem2
    · simp at heq
    · obtain ⟨p, a', i', c', s', hsplit, h1, h2, h3⟩ := ih id hmem2
      exact ⟨a :: i :: p, a', i', c', s', by rw [hsplit]; rfl, h1, h2, h3⟩
  | case6 a hnq hverb i rest hnstart hnstop hreboot ih =>
    intro id hmem
    rw [action_loop_reboot_eq a i rest hreboot] at hmem
    rcases List.mem_cons.mp hmem with heq | hmem2
    · simp at heq
    · obtain ⟨p, a', i', c', s', hsplit, h1, h2, h3⟩ := ih id hmem2
      exact ⟨a :: i :: p, a', i', c', s', by rw [hsplit]; rfl, h1, h2, h3⟩
  | case7 a hnq hverb i hnstart hnstop hnreboot =>
    intro id hmem
    have hterm : pyStripLower a = "terminate".data := by
      rcases hverb with h | h | h | h
      · exact absurd h hnstart
      · exact absurd h hnstop
      · exact absurd h hnreboot
      · exact h
    rw [action_loop_term_nil_eq a i hterm] at hmem
    simp at hmem
  | case8 a hnq hverb i hnstart hnstop hnreboot c rest hy ih =>
    intro id hmem
    have hterm : pyStripLower a = "terminate".data := by
      rcases hverb with h | h | h | h
      · exact absurd h hnstart
      · exact absurd h hnstop
      · exact absurd h hnreboot
      · exact h
    rw [action_loop_term_y_eq a i c rest hterm hy] at hmem
    rcases List.mem_cons.mp hmem with heq | hmem2
    · have hid : id = pyStrip i := by simpa using heq
      exact ⟨[], a, i, c, rest, rfl, hterm, hid.symm, hy⟩
    · obtain ⟨p, a', i', c', s', hsplit, h1, h2, h3⟩ := ih id hmem2
      exact ⟨a :: i :: c :: p, a', i', c', s', by rw [hsplit]; rfl, h1, h2, h3⟩
  | case9 a hnq hverb i hnstart hnstop hnreboot c rest hny ih =>
    intro id hmem
    have hterm : pyStripLower a = "terminate".data := by
      rcases hverb with h | h | h | h
      · exact absurd h hnstart
      · exact absurd h hnstop
      · exact absurd h hnreboot
      · exact h
    rw [action_loop_term_abort_eq a i c rest hterm hny] at hmem
    obtain ⟨p, a', i', c', s', hsplit, h1, h2, h3⟩ := ih id hmem
    exact ⟨a :: i :: c :: p, a', i', c', s', by rw [hsplit]; rfl, h1, h2, h3⟩
  | case10 a rest hnq hnverb ih =>
    intro id hmem
    rw [action_loop_invalid_eq a rest hnq hnverb] at hmem
    obtain ⟨p, a', i', c', s', hsplit, h1, h2, h3⟩ := ih id hmem
    exact ⟨a :: p, a', i', c', s', by rw [hsplit]; rfl, h1, h2, h3⟩

/-- Two section names that both carry the `profile ` marker and agree
after the marker is stripped are equal. -/
theorem tag_drop_inj {a b : PyStr} (ha : profileSectionTag.isPrefixOf a)
    (hb : profileSectionTag.isPrefixOf b) (h : a.drop 8 = b.drop 8) : a = b := by
  rw [ List.isPrefixOf_iff_prefix] at ha hb
  obtain ⟨ta, hta⟩ := ha
  obtain ⟨tb, htb⟩ := hb
  have hlen : profileSectionTag.length = 8 := by decide
  have hda : a.drop 8 = ta := by rw [← hta, ← hlen, List.drop_left]
  have hdb : b.drop 8 = tb := by rw [← htb, ← hlen, List.drop_left]
  rw [← hta, ← htb, ← hda, ← hdb, h]

/-- Every entry of the config-file pass comes from a `profile `-tagged
config section, with the region read from that section. -/
theorem config_profile_entries_mem (config : IniFile) (acct : PyStr → String)
    (e : AwsProfileEntry) (he : e ∈ config_profile_entries config acct) :
    ∃ s, s ∈ config ∧ profileSectionTag.isPrefixOf s.1 ∧ e.profile = s.1.drop 8 ∧
      e.region = sect_get_region s.2 := by
  rw [config_profile_entries] at he
  obtain ⟨s, hs, rfl⟩ := List.mem_map.mp he
  have hf := List.mem_filter.mp hs
  exact ⟨s, hf.1, hf.2, rfl, rfl⟩

/-- The names produced by the config-file pass. -/
theorem config_profile_entries_names (config : IniFile) (acct : PyStr → String) :
    (config_profile_entries config acct).map AwsProfileEntry.profile =
      configProfileNames config := by
  rw [config_profile_entries, configProfileNames, List.map_map]
  rfl

/-- With distinct config sections, the stripped profile names of the
config-file pass are distinct. -/
theorem configProfileNames_nodup (config : IniFile)
    (hc : (config.map Prod.fst).Nodup) : (configProfileNames config).Nodup := by
  rw [configProfileNames]
  have hnd : ((config.filter (fun s => profileSectionTag.isPrefixOf s.1)).map Prod.fst).Nodup :=
    hc.sublist ((List.filter_sublist config).map Prod.fst)
  rw [show (fun s : PyStr × List (String × String) => s.1.drop 8) =
    (fun x : PyStr => x.drop 8) ∘ Prod.fst from rfl, ← List.map_map]
  refine List.Nodup.map_on ?_ hnd
  intro x hx y hy hxy
  obtain ⟨sx, hsx, rfl⟩ := List.mem_map.mp hx
  obtain ⟨sy, hsy, rfl⟩ := List.mem_map.mp hy
  exact tag_drop_inj (List.mem_filter.mp hsx).2 (List.mem_filter.mp hsy).2 hxy

/-- A name is in the output of the credentials pass iff it is in the
accumulated table or in the credentials sections. -/
theorem add_cred_profiles_names (config : IniFile) (acct : PyStr → String) :
    ∀ (cs : List PyStr) (ps : List AwsProfileEntry) (n : PyStr),
      n ∈ (add_cred_profiles config acct ps cs).map AwsProfileEntry.profile ↔
        n ∈ ps.map AwsProfileEntry.profile ∨ n ∈ cs := by
  intro cs
  induction cs with
  | nil =>
    intro ps n
    simp [add_cred_profiles]
  | cons c cs ih =>
    intro ps n
    rw [add_cred_profiles]
    cases hany : ps.any (fun p => p.profile == c) with
    | true =>
      have hcin : c ∈ ps.map AwsProfileEntry.profile := by
        simp only [List.any_eq_true, beq_iff_eq] at hany
        obtain ⟨p, hp, hpe⟩ := hany
        exact hpe ▸ List.mem_map_of_mem AwsProfileEntry.profile hp
      simp only [hany, if_true]
      rw [ih ps n]
      constructor
      · rintro (h | h)
        · exact Or.inl h
        · exact Or.inr (List.mem_cons_of_mem c h)
      · rintro (h | h)
        · exact Or.inl h
        · rcases List.mem_cons.mp h with rfl | h2
          · exact Or.inl hcin
          · exact Or.inr h2
    | false =>
      simp only [hany, Bool.false_eq_true, if_false]
      rw [ih]
      simp only [List.map_append, List.mem_append, List.map_cons, List.map_nil,
        List.mem_singleton, List.mem_cons]
      tauto

/-- The credentials pass keeps the profile names distinct: a section
whose name is already present is skipped. -/
theorem add_cred_profiles_nodup (config : IniFile) (acct : PyStr → String) :
    ∀ (cs : List PyStr) (ps : List AwsProfileEntry),
      (ps.map AwsProfileEntry.profile).Nodup →
      ((add_cred_profiles config acct ps cs).map AwsProfileEntry.profile).Nodup := by
  intro cs
  induction cs with
  | nil =>
    intro ps h
    simpa [add_cred_profiles] using h
  | cons c cs ih =>
    intro ps h
    rw [add_cred_profiles]
    cases hany : ps.any (fun p => p.profile == c) with
    | true =>
      simp only [hany, if_true]
      exact ih ps h
    | false =>
      have hnotin : c ∉ ps.map AwsProfileEntry.profile := by
        simp only [List.any_eq_false, beq_iff_eq] at hany
        simp only [List.mem_map, not_exists, not_and]
        intro p hp hpe
        exact hany p hp hpe
      simp only [hany, Bool.false_eq_true, if_false]
      refine ih _ ?_
      simp [List.nodup_append, h, hnotin]

/-- Every entry of the credentials-pass output is either from the
accumulated table, or freshly built from a credentials section whose
name was absent from the accumulated table. -/
theorem add_cred_profiles_mem (config : IniFile) (acct : PyStr → String) :
    ∀ (cs : List PyStr) (ps : List AwsProfileEntry) (e : AwsProfileEntry),
      e ∈ add_cred_profiles config acct ps cs →
      e ∈ ps ∨ (∃ c, c ∈ cs ∧
        e = { profile := c, region := bare_config_region config c, account_id := acct c } ∧
        e.profile ∉ ps.map AwsProfileEntry.profile) := by
  intro cs
  induction cs with
  | nil =>
    intro ps e he
    rw [add_cred_profiles] at he
    exact Or.inl he
  | cons c cs ih =>
    intro ps e he
    rw [add_cred_profiles] at he
    cases hany : ps.any (fun p => p.profile == c) with
    | true =>
      rw [hany, if_pos rfl] at he
      rcases ih ps e he with h | ⟨c', hc', heq, hnot⟩
      · exact Or.inl h
      · exact Or.inr ⟨c', List.mem_cons_of_mem c hc', heq, hnot⟩
    | false =>
      have hnotin : c ∉ ps.map AwsProfileEntry.profile := by
        simp only [List.any_eq_false, beq_iff_eq] at hany
        simp only [List.mem_map, not_exists, not_and]
        intro p hp hpe
        exact hany p hp hpe
      rw [hany] at he
      simp only [Bool.false_eq_true, if_false] at he
      rcases ih _ e he with h | ⟨c', hc', heq, hnot⟩
      · rcases List.mem_append.mp h with h2 | h2
        · exact Or.inl h2
        · have he2 := List.mem_singleton.mp h2
          refine Or.inr ⟨c, List.mem_cons_self c cs, he2, ?_⟩
          rw [he2]
          exact hnotin
      · refine Or.inr ⟨c', List.mem_cons_of_mem c hc', heq, fun hin => ?_⟩
        exact hnot (by simp only [List.map_append, List.mem_append]; exact Or.inl hin)

/-! ## Claims -/

/-- C1: the `total_cost` computed by the aggregation loop equals the
arithmetic sum of the individual group costs; the per-service table
sums to the same total with a repeated service name merged into one
entry (distinct keys); and when the total is nonzero the printed
percentages `cost/total_cost*100` sum to exactly `100`. -/
theorem analyze_costs_totals (results : List (List CostGroup)) :
    (aggregate results.flatten).1 = sumCosts results.flatten ∧
    sumCosts (aggregate results.flatten).2 = (aggregate results.flatten).1 ∧
    ((aggregate results.flatten).2.map Prod.fst).Nodup ∧
    ((aggregate results.flatten).1 ≠ 0 →
      (percentages (sortServicesDesc (aggregate results.flatten).2)
        (aggregate results.flatten).1).sum = 100) := by
  obtain ⟨h1, h2, h3, -⟩ :=
    aggregate_loop_invariant results.flatten 0 [] (by simp)
  have ht : (aggregate results.flatten).1 = sumCosts results.flatten := by
    rw [aggregate, h2]; ring
  have hs : sumCosts (aggregate results.flatten).2 = (aggregate results.flatten).1 := by
    rw [aggregate, h3, h2]
    simp [sumCosts]
  refine ⟨ht, hs, h1, fun hne => ?_⟩
  rw [percentages_sum, sumCosts_sortServicesDesc, hs, div_self hne, one_mul]

/-- Witness for `analyze_costs_totals` on one result with a repeated
service name. -/
theorem analyze_costs_totals_witness :
    (aggregate [[("Amazon EC2", (3 : ℚ)), ("Amazon S3", 1), ("Amazon EC2", 2)]].flatten).1 ≠ 0 ∧
    (percentages
        (sortServicesDesc
          (aggregate [[("Amazon EC2", (3 : ℚ)), ("Amazon S3", 1), ("Amazon EC2", 2)]].flatten).2)
        (aggregate [[("Amazon EC2", (3 : ℚ)), ("Amazon S3", 1), ("Amazon EC2", 2)]].flatten).1).sum =
      100 := by
  have h : (aggregate [[("Amazon EC2", (3 : ℚ)), ("Amazon S3", 1), ("Amazon EC2", 2)]].flatten).1 ≠
      0 := by
    simp [aggregate, addService]
    norm_num
  exact ⟨h, (analyze_costs_totals [[("Amazon EC2", (3 : ℚ)), ("Amazon S3", 1),
    ("Amazon EC2", 2)]]).2.2.2 h⟩

/-- C5: with distinct config sections (as `configparser` guarantees),
`get_aws_profiles` returns exactly one entry per distinct profile
name drawn from the two sources; a name in both sources appears once
with its region taken from the config file's `profile X` section
(`Not set` when that section has no region); and a credentials-only
name gets region `Not set` unless a matching bare config section
supplies one (`bare_config_region`). -/
theorem get_aws_profiles_dedup (config : IniFile) (credentials : List PyStr)
    (acct : PyStr → String) (hc : (config.map Prod.fst).Nodup) :
    ((get_aws_profiles config credentials acct).map AwsProfileEntry.profile).Nodup ∧
    (∀ n, n ∈ (get_aws_profiles config credentials acct).map AwsProfileEntry.profile ↔
      n ∈ configProfileNames config ∨ n ∈ credentials) ∧
    (∀ s, s ∈ config → profileSectionTag.isPrefixOf s.1 →
      ∀ e, e ∈ get_aws_profiles config credentials acct → e.profile = s.1.drop 8 →
        e.region = sect_get_region s.2) ∧
    (∀ e, e ∈ get_aws_profiles config credentials acct →
      e.profile ∉ configProfileNames config →
      e.region = bare_config_region config e.profile) := by
  have hbase : ((config_profile_entries config acct).map AwsProfileEntry.profile).Nodup := by
    rw [config_profile_entries_names]
    exact configProfileNames_nodup config hc
  refine ⟨?_, ?_, ?_, ?_⟩
  · exact add_cred_profiles_nodup config acct credentials (config_profile_entries config acct)
      hbase
  · intro n
    rw [get_aws_profiles, add_cred_profiles_names, config_profile_entries_names]
  · intro s hs hpre e he hprof
    rcases add_cred_profiles_mem config acct credentials (config_profile_entries config acct)
        e he with h | ⟨c, _, heq, hnot⟩
    · obtain ⟨t, ht, htpre, htprof, htreg⟩ := config_profile_entries_mem config acct e h
      have hts : t.1 = s.1 := tag_drop_inj htpre hpre (by rw [← htprof, hprof])
      have : t = s := List.inj_on_of_nodup_map hc ht hs hts
      rw [htreg, this]
    · exfalso
      apply hnot
      rw [config_profile_entries_names, hprof, configProfileNames]
      exact List.mem_map_of_mem _ (List.mem_filter.mpr ⟨hs, hpre⟩)
  · intro e he hn
    rcases add_cred_profiles_mem config acct credentials (config_profile_entries config acct)
        e he with h | ⟨c, _, heq, _⟩
    · exfalso
      apply hn
      rw [← config_profile_entries_names config acct]
      exact List.mem_map_of_mem AwsProfileEntry.profile h
    · rw [heq]

/-- Witness for `get_aws_profiles_dedup`: a profile `dev` in both
sources, a credentials-only profile `prod` with a bare config
section, and a credentials-only profile `extra`. -/
theorem get_aws_profiles_dedup_witness :
    ((([("profile dev".data, [("region", "us-east-1")]),
        ("prod".data, [("region", "eu-west-1")])] : IniFile).map Prod.fst).Nodup) ∧
    (∀ e, e ∈ get_aws_profiles
        [("profile dev".data, [("region", "us-east-1")]),
          ("prod".data, [("region", "eu-west-1")])]
        ["dev".data, "prod".data, "extra".data] (fun _ => "123") →
      e.profile ∉ configProfileNames
        [("profile dev".data, [("region", "us-east-1")]),
          ("prod".data, [("region", "eu-west-1")])] →
      e.region = bare_config_region
        [("profile dev".data, [("region", "us-east-1")]),
          ("prod".data, [("region", "eu-west-1")])] e.profile) :=
  ⟨by decide,
    (get_aws_profiles_dedup
      [("profile dev".data, [("region", "us-east-1")]),
        ("prod".data, [("region", "eu-west-1")])]
      ["dev".data, "prod".data, "extra".data] (fun _ => "123") (by decide)).2.2.2⟩

/-- C6: for a nonempty service table, descending sort places a
maximum-cost entry first and a minimum-cost entry last, and the
printed `Most expensive service` / `Least expensive service` lines
name exactly the first (`sorted_services[0]`) and last
(`sorted_services[-1]`) entries of the sorted list. -/
theorem sorted_extremes (svc : List CostGroup) (h : svc ≠ []) :
    ∃ hs : sortServicesDesc svc ≠ [],
      (∀ e ∈ svc, e.2 ≤ ((sortServicesDesc svc).head hs).2 ∧
        ((sortServicesDesc svc).getLast hs).2 ≤ e.2) ∧
      most_expensive_line (sortServicesDesc svc) =
        some ("3. Most expensive service: " ++ ((sortServicesDesc svc).head hs).1 ++
          " (" ++ format_cost ((sortServicesDesc svc).head hs).2 ++ ")") ∧
      least_expensive_line (sortServicesDesc svc) =
        some ("4. Least expensive service: " ++ ((sortServicesDesc svc).getLast hs).1 ++
          " (" ++ format_cost ((sortServicesDesc svc).getLast hs).2 ++ ")") := by
  have hs : sortServicesDesc svc ≠ [] := by
    intro hcon
    have := congrArg List.length hcon
    rw [sortServicesDesc, List.length_mergeSort] at this
    exact h (List.eq_nil_of_length_eq_zero this)
  have hp := sortServicesDesc_pairwise svc
  refine ⟨hs, fun e he => ?_, ?_, ?_⟩
  · have hmem : e ∈ sortServicesDesc svc := by
      rw [sortServicesDesc, List.mem_mergeSort]
      exact he
    constructor
    · rcases pairwise_head_rel (sortServicesDesc svc) hs e hp hmem with heq | hrel
      · exact le_of_eq (congrArg Prod.snd heq)
      · exact hrel
    · rcases pairwise_getLast_rel (sortServicesDesc svc) hs e hp hmem with heq | hrel
      · exact le_of_eq (congrArg Prod.snd heq.symm)
      · exact hrel
  · rw [most_expensive_line, List.head?_eq_head hs]
    rfl
  · rw [least_expensive_line, List.getLast?_eq_getLast (sortServicesDesc svc) hs]
    rfl

/-- Witness for `sorted_extremes` on a two-service table. -/
theorem sorted_extremes_witness :
    ∃ hs : sortServicesDesc [("Amazon S3", (1 : ℚ)), ("Amazon EC2", 3)] ≠ [],
      (∀ e ∈ [("Amazon S3", (1 : ℚ)), ("Amazon EC2", 3)],
        e.2 ≤ ((sortServicesDesc [("Amazon S3", (1 : ℚ)), ("Amazon EC2", 3)]).head hs).2 ∧
        ((sortServicesDesc [("Amazon S3", (1 : ℚ)), ("Amazon EC2", 3)]).getLast hs).2 ≤ e.2) ∧
      most_expensive_line (sortServicesDesc [("Amazon S3", (1 : ℚ)), ("Amazon EC2", 3)]) =
        some ("3. Most expensive service: " ++
          ((sortServicesDesc [("Amazon S3", (1 : ℚ)), ("Amazon EC2", 3)]).head hs).1 ++
          " (" ++
          format_cost ((sortServicesDesc [("Amazon S3", (1 : ℚ)), ("Amazon EC2", 3)]).head hs).2 ++
          ")") ∧
      least_expensive_line (sortServicesDesc [("Amazon S3", (1 : ℚ)), ("Amazon EC2", 3)]) =
        some ("4. Least expensive service: " ++
          ((sortServicesDesc [("Amazon S3", (1 : ℚ)), ("Amazon EC2", 3)]).getLast hs).1 ++
          " (" ++
          format_cost
            ((sortServicesDesc [("Amazon S3", (1 : ℚ)), ("Amazon EC2", 3)]).getLast hs).2 ++
          ")") :=
  sorted_extremes [("Amazon S3", (1 : ℚ)), ("Amazon EC2", 3)] (by decide)

/-- C8: `analyze_costs` is not total on degenerate cost data.  When the
current-period query succeeds (a truthy result list) but contains no
service groups, line 91 raises `IndexError`; when at least one group
exists but the summed total is exactly zero, line 78 raises
`ZeroDivisionError`. -/
theorem analyze_core_degenerate (results : List (List CostGroup)) :
    (results ≠ [] → results.flatten = [] →
      analyze_core results = Except.error CostError.indexError) ∧
    (results.flatten ≠ [] → (aggregate results.flatten).1 = 0 →
      analyze_core results = Except.error CostError.zeroDivisionError) := by
  constructor
  · intro _ hflat
    rw [analyze_core, hflat]
    simp [aggregate, sortServicesDesc]
  · intro hne hzero
    have hsvc : (aggregate results.flatten).2 ≠ [] := aggregate_ne_nil results.flatten hne
    have hsort : ¬(sortServicesDesc (aggregate results.flatten).2).isEmpty = true := by
      simp only [List.isEmpty_iff, sortServicesDesc]
      intro hcon
      have := congrArg List.length hcon
      rw [List.length_mergeSort] at this
      exact hsvc (List.eq_nil_of_length_eq_zero this)
    rw [analyze_core]
    simp only [hsort, if_false, hzero, if_true]
    simp

/-- Witness for `analyze_core_degenerate`: a truthy result list with an
empty group list raises `IndexError`; a single zero-cost group raises
`ZeroDivisionError`. -/
theorem analyze_core_degenerate_witness :
    analyze_core [[]] = Except.error CostError.indexError ∧
    analyze_core [[("AWS Lambda", 0)]] = Except.error CostError.zeroDivisionError :=
  ⟨(analyze_core_degenerate [[]]).1 (by decide) rfl,
    (analyze_core_degenerate [[("AWS Lambda", 0)]]).2 (by decide)
      (by simp [aggregate, addService])⟩

/-- C2: for a strictly positive previous-period cost the trend equals
`(current − previous) / previous × 100`; with a previous-period cost of
exactly zero the guard of line 133 yields a trend of `0` with no
division performed, printed as a `Decrease of 0.00%` line. -/
theorem cost_trend_formula (total prev : ℚ) (days : Int) (h : 0 < prev) :
    cost_change total prev = (total - prev) / prev * 100 ∧
    cost_change total 0 = 0 ∧
    trendDirection (cost_change total 0) = "Decrease" ∧
    trendLine (cost_change total 0) days =
      "10. Cost trend: Decrease of 0.00% compared to previous " ++ toString days ++ " days" := by
  refine ⟨by simp [cost_change, h], by simp [cost_change], by simp [trendDirection, cost_change], ?_⟩
  have h0 : cost_change total 0 = 0 := by simp [cost_change]
  rw [trendLine, h0, trendDirection]
  norm_num [formatFixed2_zero]
  congr 1

/-- Witness for `cost_trend_formula` at `total = 200`, `prev = 80`,
`days = 90`. -/
theorem cost_trend_formula_witness :
    cost_change 200 80 = (200 - 80) / 80 * 100 ∧
    cost_change 200 0 = 0 ∧
    trendDirection (cost_change 200 0) = "Decrease" ∧
    trendLine (cost_change 200 0) 90 =
      "10. Cost trend: Decrease of 0.00% compared to previous " ++ toString (90 : Int) ++ " days" :=
  cost_trend_formula 200 80 90 (by norm_num)

/-- C10: a successful `get_billing_info` record has exactly the four
keys `Profile`, `Month-to-Date Cost`, `Forecast`, `Estimated Amount
Due`, and the `Estimated Amount Due` field is the identical formatted
string as the `Forecast` field — the rest-of-month forecast, with the
month-to-date cost never added. -/
theorem get_billing_info_record (profile : String) (d : BillingApiData) :
    (get_billing_info profile (Except.ok d)).lookup "Estimated Amount Due" =
      (get_billing_info profile (Except.ok d)).lookup "Forecast" ∧
    (get_billing_info profile (Except.ok d)).lookup "Estimated Amount Due" =
      some (format_cost d.forecast) ∧
    (get_billing_info profile (Except.ok d)).map Prod.fst =
      ["Profile", "Month-to-Date Cost", "Forecast", "Estimated Amount Due"] := by
  refine ⟨?_, ?_, ?_⟩ <;> simp [get_billing_info, List.lookup]

/-- C9: a `ClientError` from `describe_instances` makes
`list_ec2_instances` return the empty list, so `manage_instances`
reports `No instances found` and issues no API call — for every input
stream the result is identical to that of an account with zero
instances. -/
theorem api_error_like_no_instances (profile : String) (e : String) (inputs : List PyStr) :
    list_ec2_instances (Except.error e) = [] ∧
    manage_instances profile (Except.error e) inputs =
      (["No instances found for profile " ++ profile ++ "."], []) ∧
    manage_instances profile (Except.error e) inputs =
      manage_instances profile (Except.ok []) inputs := by
  refine ⟨rfl, ?_, ?_⟩ <;> simp [manage_instances, list_ec2_instances]

/-- C7: when the user declines to use an existing key pair,
`manage_key_pair` writes the returned key material to
`<key_name>.pem`, sets that file's permission bits to owner-read-only
(`0o400 = 256`) before returning, returns the key name, and writes no
other file. -/
theorem manage_key_pair_new_key (use_existing : PyStr) (key_pairs : List String)
    (selections : List PyStr) (key_name material : String)
    (h : pyStripLower use_existing ≠ "y".data) :
    manage_key_pair use_existing key_pairs selections key_name (Except.ok material) =
      ([FsEvent.write (key_name ++ ".pem") material,
        FsEvent.chmod (key_name ++ ".pem") 256], KeyPairOutcome.returned key_name) := by
  simp [manage_key_pair, h]

/-- Witness for `manage_key_pair_new_key` with answer `"n"`. -/
theorem manage_key_pair_new_key_witness :
    manage_key_pair "n".data ["old-key"] [] "mykey" (Except.ok "PRIVATE") =
      ([FsEvent.write ("mykey" ++ ".pem") "PRIVATE",
        FsEvent.chmod ("mykey" ++ ".pem") 256], KeyPairOutcome.returned "mykey") :=
  manage_key_pair_new_key "n".data ["old-key"] [] "mykey" "PRIVATE" (by decide)

/-- C3: in the `manage_instances` interaction loop a terminate API
call is issued only after a confirmation answer normalising (strip,
lowercase) to exactly `y` for a preceding `terminate` action; and a
`terminate` action whose confirmation answer is anything else is
aborted — the loop continues with no terminate call issued for it. -/
theorem terminate_requires_confirmation :
    (∀ (profile : String) (resp : Except String (List (List Ec2Instance)))
        (inputs : List PyStr) (id : PyStr),
      ApiCall.terminate id ∈ (manage_instances profile resp inputs).2 →
      ∃ (p : List PyStr) (a i c : PyStr) (s : List PyStr),
        inputs = p ++ a :: i :: c :: s ∧ pyStripLower a = "terminate".data ∧
        pyStrip i = id ∧ pyStripLower c = "y".data) ∧
    (∀ (a i c : PyStr) (s : List PyStr),
      pyStripLower a = "terminate".data → ¬pyStripLower c = "y".data →
      action_loop (a :: i :: c :: s) = action_loop s) := by
  constructor
  · intro profile resp inputs id hmem
    cases hi : (list_ec2_instances resp).isEmpty with
    | true => simp [manage_instances, hi] at hmem
    | false =>
      simp only [manage_instances, hi, Bool.false_eq_true, if_false] at hmem
      exact action_loop_terminate_src inputs id hmem
  · exact fun a i c s h hny => action_loop_term_abort_eq a i c s h hny

/-- Witness for `terminate_requires_confirmation`: a confirmed
terminate on one instance, and an aborted one answered `n`. -/
theorem terminate_requires_confirmation_witness :
    (∃ (p : List PyStr) (a i c : PyStr) (s : List PyStr),
      ["terminate".data, "i-1".data, "y".data] = p ++ a :: i :: c :: s ∧
      pyStripLower a = "terminate".data ∧ pyStrip i = "i-1".data ∧
      pyStripLower c = "y".data) ∧
    action_loop ["terminate".data, "i-1".data, "n".data] = action_loop [] :=
  ⟨terminate_requires_confirmation.1 "default"
      (Except.ok [[⟨"i-1", "running", "t2.micro", none, none, [], "t"⟩]])
      ["terminate".data, "i-1".data, "y".data] "i-1".data (by decide),
    terminate_requires_confirmation.2 "terminate".data "i-1".data "n".data []
      (by decide) (by decide)⟩

/-- C4 counterexample: on the concrete invalid numeric selection `"x"`
(with one profile available) the `aws-ec2-list.py` entry point takes
the invalid-selection branch and the script terminates with exit
status `0`, not a non-zero status — the `except` clause at lines
154-155 only prints `Invalid selection. Exiting...` and the script
falls off the end of the file. -/
theorem invalid_selection_exit_status_zero :
    ec2_list_main ["default"] "x".data =
      { outcome := MainOutcome.invalidSelection, exitCode := some 0 } := by decide

/-- C4 (amended): an invalid numeric profile selection at the
`aws-ec2-list` entry point (non-integer input, or an index outside the
profile list) is caught and the script exits normally with status `0`;
`aws-billing-info` invoked without profile arguments exits with
status `1`; and recoverable per-profile SDK client errors are caught
and turned into an error record while processing continues with the
remaining profiles. -/
theorem setup_failure_exit_codes :
    (∀ (profiles : List String) (raw : PyStr),
      pyStripLower raw ≠ "all".data →
      (pyParseInt (pyStripLower raw) = none ∨
        ∃ n, pyParseInt (pyStripLower raw) = some n ∧ pyIndex profiles (n - 1) = none) →
      ec2_list_main profiles raw =
        { outcome := MainOutcome.invalidSelection, exitCode := some 0 }) ∧
    (∀ (argv : List String) (api : String → Except String BillingApiData),
      argv.length < 2 → (billing_script argv api).1 = 1) ∧
    (∀ (profiles : List String) (api : String → Except String BillingApiData),
      (billing_main profiles api).length = profiles.length) ∧
    (∀ (profile e : String),
      get_billing_info profile (Except.error e) = [("Profile", profile), ("Error", e)]) := by
  refine ⟨?_, ?_, ?_, ?_⟩
  · intro profiles raw hall hbad
    rw [ec2_list_main]
    simp only [hall, if_false]
    rcases hbad with hnone | ⟨n, hsome, hidx⟩
    · rw [hnone]
    · rw [hsome]
      simp only []
      rw [hidx]
  · intro argv api h
    simp [billing_script, h]
  · intro profiles api
    simp [billing_main]
  · intro profile e
    rfl

/-- Witness for `setup_failure_exit_codes`: the non-numeric choice
`"x"` against one profile, and a `aws-billing-info` run with no
profile arguments. -/
theorem setup_failure_exit_codes_witness :
    ec2_list_main ["default"] "9".data =
      { outcome := MainOutcome.invalidSelection, exitCode := some 0 } ∧
    (billing_script ["aws-billing-info.py"] (fun _ => Except.error "boom")).1 = 1 :=
  ⟨setup_failure_exit_codes.1 ["default"] "9".data (by decide)
      (Or.inr ⟨9, by decide, by decide⟩),
    setup_failure_exit_codes.2.1 ["aws-billing-info.py"] (fun _ => Except.error "boom")
      (by decide)⟩

end AwsCli
